import Mathlib

/-!
Shallow embedding of the qtree-demo quadtree core (src/rect.rs and
src/qtree.rs).  Coordinates (Rust f32) are modelled as rationals; the
usize query-limit counter is modelled as a natural number with explicit
wraparound modulo 2 ^ 64 at the one place the source may underflow;
opaque identifiers (ProcessUniqueId) are modelled as naturals; the
HashMap of objects is modelled as an association list and the HashSet
result of a query as a Finset.  QTreeNode::insert takes &mut self and
may recurse into freshly created children, so it is embedded
state-passing with an explicit fuel parameter (none = fuel exhausted).
-/

namespace QtreeDemo

/-- Model of the ggez Point2 type as used by rect.rs: a 2-d point. -/
structure Point2 where
  x : ℚ
  y : ℚ
deriving DecidableEq

/-- Mirror of rect.rs Rect: a rectangle given by center and half-extents. -/
structure Rect where
  center : Point2
  w_half : ℚ
  h_half : ℚ
deriving DecidableEq

/-- Mirror of the corner tag NE = 0 from rect.rs. -/
def NE : Nat := 0

/-- Mirror of the corner tag NW = 1 from rect.rs. -/
def NW : Nat := 1

/-- Mirror of the corner tag SW = 2 from rect.rs. -/
def SW : Nat := 2

/-- Mirror of the corner tag SE = 3 from rect.rs. -/
def SE : Nat := 3

/-- Mirror of Rect::new: build from top-left corner and dimensions. -/
def Rect.new (x y w h : ℚ) : Rect :=
  ⟨⟨(x + x + w) / 2, (y + y + h) / 2⟩, w / 2, h / 2⟩

/-- Mirror of Rect::corner: the compass corner for a usize tag, None for
tags other than 0..3 (the source match arms are ordered NE, NW, SE, SW). -/
def Rect.corner (r : Rect) (which : Nat) : Option Point2 :=
  if which = NE then some ⟨r.center.x + r.w_half, r.center.y - r.h_half⟩
  else if which = NW then some ⟨r.center.x - r.w_half, r.center.y - r.h_half⟩
  else if which = SE then some ⟨r.center.x + r.w_half, r.center.y + r.h_half⟩
  else if which = SW then some ⟨r.center.x - r.w_half, r.center.y + r.h_half⟩
  else none

/-- Models the .unwrap() calls on Rect::corner, which in the source occur
only at the four in-range tags where corner is some. -/
def Rect.cornerU (r : Rect) (which : Nat) : Point2 :=
  (r.corner which).getD ⟨0, 0⟩

/-- Mirror of Rect::contains_point (inclusive bounds on both axes). -/
def Rect.contains_point (r : Rect) (p : Point2) : Bool :=
  decide ((r.cornerU NW).x ≤ p.x) && decide (p.x ≤ (r.cornerU NE).x) &&
    decide ((r.cornerU NE).y ≤ p.y) && decide (p.y ≤ (r.cornerU SE).y)

/-- Mirror of Rect::contains_rect: all four corners of the other rectangle
are contained. -/
def Rect.contains_rect (r other : Rect) : Bool :=
  r.contains_point (other.cornerU NE) && r.contains_point (other.cornerU NW) &&
    r.contains_point (other.cornerU SW) && r.contains_point (other.cornerU SE)

/-- Mirror of QTreeError from qtree.rs: the single error kind. -/
inductive QTreeError where
  | RectDoesNotFit
deriving DecidableEq

/-- Mirror of QTreeNode from qtree.rs.  The children field is None or the
4 quadrant nodes in fixed order [NE, NW, SW, SE]; the Box of a length-4
array is modelled as a list.  The HashMap of objects is modelled as an
association list from identifiers to rectangles. -/
inductive QTreeNode where
  | mk (boundary : Rect) (objects : List (Nat × Rect))
      (children : Option (List QTreeNode)) (capacity : Nat)

/-- Accessor for the boundary field. -/
def QTreeNode.boundary : QTreeNode → Rect
  | .mk b _ _ _ => b

/-- Accessor for the objects field. -/
def QTreeNode.objects : QTreeNode → List (Nat × Rect)
  | .mk _ objs _ _ => objs

/-- Accessor for the children field. -/
def QTreeNode.children : QTreeNode → Option (List QTreeNode)
  | .mk _ _ ch _ => ch

/-- Accessor for the capacity field. -/
def QTreeNode.capacity : QTreeNode → Nat
  | .mk _ _ _ cap => cap

/-- Mirror of QTreeNode::new: a leaf with no objects and no children. -/
def QTreeNode.new (boundary : Rect) (capacity : Nat) : QTreeNode :=
  .mk boundary [] none capacity

/-- Models HashMap::insert on the objects map: any existing binding of the
key is replaced, otherwise a new binding is added. -/
def mapInsert (m : List (Nat × Rect)) (k : Nat) (v : Rect) : List (Nat × Rect) :=
  (k, v) :: m.filter (fun p => p.1 != k)

/-- The four fresh quadrant children built inside QTreeNode::subdiv, in
source order [NE, NW, SW, SE]: each child's center is the midpoint of the
parent's center and the matching compass corner, half-extents are halved,
and the parent's capacity is inherited. -/
def subdivChildren (b : Rect) (cap : Nat) : List QTreeNode :=
  [ QTreeNode.new ⟨⟨(b.center.x + (b.cornerU NE).x) / 2, (b.center.y + (b.cornerU NE).y) / 2⟩,
      b.w_half / 2, b.h_half / 2⟩ cap,
    QTreeNode.new ⟨⟨(b.center.x + (b.cornerU NW).x) / 2, (b.center.y + (b.cornerU NW).y) / 2⟩,
      b.w_half / 2, b.h_half / 2⟩ cap,
    QTreeNode.new ⟨⟨(b.center.x + (b.cornerU SW).x) / 2, (b.center.y + (b.cornerU SW).y) / 2⟩,
      b.w_half / 2, b.h_half / 2⟩ cap,
    QTreeNode.new ⟨⟨(b.center.x + (b.cornerU SE).x) / 2, (b.center.y + (b.cornerU SE).y) / 2⟩,
      b.w_half / 2, b.h_half / 2⟩ cap ]

/-- Mirror of QTreeNode::subdiv: a no-op when children already exist,
otherwise install the four quadrant children. -/
def QTreeNode.subdiv : QTreeNode → QTreeNode
  | .mk b objs none cap => .mk b objs (some (subdivChildren b cap)) cap
  | .mk b objs (some cs) cap => .mk b objs (some cs) cap

/-- The child-probing loop of QTreeNode::insert: try children in order;
the first Ok ends the loop, RectDoesNotFit moves on to the next child
(threading the child state), none signals fuel exhaustion. -/
def tryChildren (ins : QTreeNode → Option (Except QTreeError Unit × QTreeNode)) :
    List QTreeNode → Option (Bool × List QTreeNode)
  | [] => some (false, [])
  | c :: rest =>
    match ins c with
    | none => none
    | some (Except.ok _, c2) => some (true, c2 :: rest)
    | some (Except.error _, c2) =>
      match tryChildren ins rest with
      | none => none
      | some (accepted, rest2) => some (accepted, c2 :: rest2)

/-- Mirror of QTreeNode::insert, state-passing (the source takes &mut
self and returns Result; here the updated node is returned alongside).
The fuel parameter bounds the recursion depth; none = fuel exhausted. -/
def insertFuel : Nat → QTreeNode → Rect → Nat → Option (Except QTreeError Unit × QTreeNode)
  | 0, _, _, _ => none
  | fuel + 1, QTreeNode.mk b objs children cap, rect, id =>
    if !(b.contains_rect rect) then
      some (Except.error QTreeError.RectDoesNotFit, QTreeNode.mk b objs children cap)
    else if objs.length < cap then
      some (Except.ok (), QTreeNode.mk b (mapInsert objs id rect) children cap)
    else
      match tryChildren (fun c => insertFuel fuel c rect id)
          (match children with
            | none => subdivChildren b cap
            | some cs => cs) with
      | none => none
      | some (true, cs2) => some (Except.ok (), QTreeNode.mk b objs (some cs2) cap)
      | some (false, cs2) =>
        some (Except.ok (), QTreeNode.mk b (mapInsert objs id rect) (some cs2) cap)

/-- Models Rust usize subtraction of 1 in release mode: wraparound modulo
2 ^ 64 (a debug build would panic on underflow at 0 instead). -/
def usizeSub1 (n : Nat) : Nat := (n + (2 ^ 64 - 1)) % 2 ^ 64

/-- The object-scanning loop of QTreeNode::query_point: add each matching
identifier; when a limit is present decrement it once per match and break
out of the scan when it reaches 0. -/
def scanObjects (point : Point2) :
    List (Nat × Rect) → Finset Nat → Option Nat → Finset Nat × Option Nat
  | [], ret, limit => (ret, limit)
  | (id, obj) :: rest, ret, limit =>
    if obj.contains_point point then
      match limit with
      | none => scanObjects point rest (insert id ret) none
      | some l =>
        if usizeSub1 l = 0 then (insert id ret, some (usizeSub1 l))
        else scanObjects point rest (insert id ret) (some (usizeSub1 l))
    else scanObjects point rest ret limit

mutual

/-- Mirror of QTreeNode::query_point: prune on boundary containment, scan
the local objects under the limit, then union in the four children's
results, each child receiving the (possibly decremented) limit. -/
def query_point : QTreeNode → Point2 → Option Nat → Finset Nat
  | QTreeNode.mk b objs children _, point, limit =>
    if !(b.contains_point point) then ∅
    else
      let p := scanObjects point objs ∅ limit
      match children with
      | none => p.1
      | some cs => queryChildren point p.2 cs p.1

/-- The child-union loop of QTreeNode::query_point. -/
def queryChildren : Point2 → Option Nat → List QTreeNode → Finset Nat → Finset Nat
  | _, _, [], ret => ret
  | point, limit, c :: rest, ret =>
    queryChildren point limit rest (ret ∪ query_point c point limit)

end

mutual

/-- Pure content of QTreeNode::draw_objects (the spec's enumerate_objects):
every rectangle stored anywhere in the tree, by full recursive traversal. -/
def enumObjects : QTreeNode → List Rect
  | QTreeNode.mk _ objs children _ =>
    objs.map Prod.snd ++
      (match children with
        | none => []
        | some cs => enumObjectsList cs)

/-- Traversal of a child list for enumObjects. -/
def enumObjectsList : List QTreeNode → List Rect
  | [] => []
  | c :: rest => enumObjects c ++ enumObjectsList rest

end

mutual

/-- Pure content of QTreeNode::draw_regions (the spec's enumerate_regions):
every node boundary in the tree, by full recursive traversal. -/
def enumRegions : QTreeNode → List Rect
  | QTreeNode.mk b _ children _ =>
    b :: (match children with
        | none => []
        | some cs => enumRegionsList cs)

/-- Traversal of a child list for enumRegions. -/
def enumRegionsList : List QTreeNode → List Rect
  | [] => []
  | c :: rest => enumRegions c ++ enumRegionsList rest

end

/-- Midpoint of two points, used to state the subdivision geometry. -/
def midpoint2 (p q : Point2) : Point2 := ⟨(p.x + q.x) / 2, (p.y + q.y) / 2⟩

/-- Claim C7: contains_point holds exactly when the point lies within the
closed intervals spanned by the rectangle on both axes, boundaries
inclusive, so a point exactly on an edge or corner is contained. -/
theorem claim_C7 (r : Rect) (p : Point2) :
    r.contains_point p = true ↔
      (r.center.x - r.w_half ≤ p.x ∧ p.x ≤ r.center.x + r.w_half ∧
        r.center.y - r.h_half ≤ p.y ∧ p.y ≤ r.center.y + r.h_half) := by
  simp [Rect.contains_point, Rect.cornerU, Rect.corner, NE, NW, SW, SE, and_assoc]

/-- Claim C8, counterexample: corner is not a compile-time-closed
enumeration over the four tags; it takes an arbitrary numeric tag and
handles out-of-range tags at runtime through an option-returning
interface (tag 4 yields none), and even the four defined tags are
delivered wrapped in the same option. -/
theorem claim_C8_counterexample :
    Rect.corner (Rect.new 0 0 2 2) 4 = none ∧
      Rect.corner (Rect.new 0 0 2 2) NE = some ⟨2, 0⟩ := by
  constructor
  · simp [Rect.corner, NE, NW, SW, SE]
  · norm_num [Rect.corner, Rect.new, NE, NW, SW, SE]

/-- Claim C8, amended: for each of the four defined tags NE, NW, SW, SE,
corner returns some of the documented point (NE = (cx+hw, cy-hh),
NW = (cx-hw, cy-hh), SW = (cx-hw, cy+hh), SE = (cx+hw, cy+hh)); any tag
beyond the four is handled at runtime by returning none through the
option-returning interface, not rejected at compile time. -/
theorem claim_C8 (r : Rect) :
    r.corner NE = some ⟨r.center.x + r.w_half, r.center.y - r.h_half⟩ ∧
      r.corner NW = some ⟨r.center.x - r.w_half, r.center.y - r.h_half⟩ ∧
      r.corner SW = some ⟨r.center.x - r.w_half, r.center.y + r.h_half⟩ ∧
      r.corner SE = some ⟨r.center.x + r.w_half, r.center.y + r.h_half⟩ ∧
      ∀ which, 3 < which → r.corner which = none := by
  refine ⟨by simp [Rect.corner, NE, NW, SW, SE], by simp [Rect.corner, NE, NW, SW, SE],
    by simp [Rect.corner, NE, NW, SW, SE], by simp [Rect.corner, NE, NW, SW, SE], ?_⟩
  intro which hw
  have h0 : ¬ which = 0 := by omega
  have h1 : ¬ which = 1 := by omega
  have h2 : ¬ which = 2 := by omega
  have h3 : ¬ which = 3 := by omega
  simp [Rect.corner, NE, NW, SW, SE, h0, h1, h2, h3]

/-- Witness for claim C8's amended theorem at a concrete rectangle and a
concrete out-of-range tag. -/
theorem claim_C8_witness :
    Rect.corner (Rect.new 0 0 4 4) NE = some ⟨4, 0⟩ ∧
      Rect.corner (Rect.new 0 0 4 4) 7 = none := by
  constructor
  · rw [(claim_C8 (Rect.new 0 0 4 4)).1]
    norm_num [Rect.new]
  · exact (claim_C8 (Rect.new 0 0 4 4)).2.2.2.2 7 (by norm_num)

/-- Claim C5: subdiv is idempotent (a no-op when children exist) and
otherwise creates exactly 4 children in the fixed order [NE, NW, SW, SE],
each with the parent's capacity, half-extents equal to half the parent's,
and center the midpoint between the parent's center and the matching
compass corner of the parent's boundary. -/
theorem claim_C5 (t : QTreeNode) :
    (∀ cs, t.children = some cs → t.subdiv = t) ∧
      (t.children = none →
        t.subdiv = QTreeNode.mk t.boundary t.objects
          (some ([NE, NW, SW, SE].map (fun w =>
            QTreeNode.new
              ⟨midpoint2 t.boundary.center (t.boundary.cornerU w),
                t.boundary.w_half / 2, t.boundary.h_half / 2⟩ t.capacity)))
          t.capacity) := by
  obtain ⟨b, objs, ch, cap⟩ := t
  constructor
  · intro cs hcs
    cases ch with
    | none => simp [QTreeNode.children] at hcs
    | some cs0 => simp [QTreeNode.subdiv]
  · intro hch
    cases ch with
    | none =>
      simp [QTreeNode.subdiv, subdivChildren, midpoint2, QTreeNode.boundary,
        QTreeNode.objects, QTreeNode.capacity]
    | some cs0 => simp [QTreeNode.children] at hch

/-- Witness for claim C5 at concrete trees: subdiv is a no-op on a node
that already has children, and on a fresh leaf it creates the four
quadrant children. -/
theorem claim_C5_witness :
    (QTreeNode.mk (Rect.new 0 0 8 8) [] (some []) 4).subdiv
        = QTreeNode.mk (Rect.new 0 0 8 8) [] (some []) 4 ∧
      (QTreeNode.new (Rect.new 0 0 8 8) 4).subdiv
        = QTreeNode.mk (Rect.new 0 0 8 8) []
            (some ([NE, NW, SW, SE].map (fun w =>
              QTreeNode.new
                ⟨midpoint2 (Rect.new 0 0 8 8).center ((Rect.new 0 0 8 8).cornerU w),
                  (Rect.new 0 0 8 8).w_half / 2, (Rect.new 0 0 8 8).h_half / 2⟩ 4)))
            4 := by
  constructor
  · exact (claim_C5 (QTreeNode.mk (Rect.new 0 0 8 8) [] (some []) 4)).1 [] rfl
  · exact (claim_C5 (QTreeNode.new (Rect.new 0 0 8 8) 4)).2 rfl

/-- Inversion for an error result of insert: the only error-producing path
is the boundary check at the top of the call, before any mutation, so the
error is RectDoesNotFit and the node comes back unchanged. -/
theorem insertFuel_error_inv {fuel : Nat} {t : QTreeNode} {rect : Rect} {id : Nat}
    {e : QTreeError} {t2 : QTreeNode}
    (h : insertFuel fuel t rect id = some (Except.error e, t2)) :
    t.boundary.contains_rect rect = false ∧ e = QTreeError.RectDoesNotFit ∧ t2 = t := by
  match fuel, t with
  | 0, t => simp [insertFuel] at h
  | fuel + 1, QTreeNode.mk b objs ch cap =>
    simp only [insertFuel] at h
    cases hc : b.contains_rect rect with
    | false =>
      rw [hc] at h
      simp only [Bool.not_false, if_true, Option.some.injEq, Prod.mk.injEq,
        Except.error.injEq] at h
      exact ⟨by simpa [QTreeNode.boundary] using hc, by cases e; rfl, h.2.symm⟩
    | true =>
      rw [hc] at h
      by_cases hlen : objs.length < cap
      · simp [hlen] at h
      · cases ch with
        | none =>
          simp only [Bool.not_true, Bool.false_eq_true, if_false, hlen] at h
          cases htc : tryChildren (fun c => insertFuel fuel c rect id)
              (subdivChildren b cap) with
          | none => rw [htc] at h; simp at h
          | some p =>
            rw [htc] at h
            obtain ⟨acc, cs2⟩ := p
            cases acc <;> simp at h
        | some cs =>
          simp only [Bool.not_true, Bool.false_eq_true, if_false, hlen] at h
          cases htc : tryChildren (fun c => insertFuel fuel c rect id) cs with
          | none => rw [htc] at h; simp at h
          | some p =>
            rw [htc] at h
            obtain ⟨acc, cs2⟩ := p
            cases acc <;> simp at h

/-- When the boundary accepts the rectangle, any returned insert result is
a success: child errors are swallowed by the probing loop and the
rectangle is stored at the node itself when no child accepts it. -/
theorem insertFuel_ok_of_contains {fuel : Nat} {t : QTreeNode} {rect : Rect} {id : Nat}
    {res : Except QTreeError Unit} {t2 : QTreeNode}
    (hc : t.boundary.contains_rect rect = true)
    (h : insertFuel fuel t rect id = some (res, t2)) : res = Except.ok () := by
  rcases res with e | u
  · rcases insertFuel_error_inv h with ⟨hfalse, _, _⟩
    rw [hc] at hfalse
    cases hfalse
  · rfl

/-- When the boundary rejects the rectangle, insert fails immediately with
RectDoesNotFit and leaves the node unchanged (needs one unit of fuel). -/
theorem insertFuel_not_fit {fuel : Nat} {t : QTreeNode} {rect : Rect} {id : Nat}
    (hf : 0 < fuel) (hc : t.boundary.contains_rect rect = false) :
    insertFuel fuel t rect id = some (Except.error QTreeError.RectDoesNotFit, t) := by
  obtain ⟨m, rfl⟩ : ∃ m, fuel = m + 1 := ⟨fuel - 1, by omega⟩
  obtain ⟨b, objs, ch, cap⟩ := t
  simp only [QTreeNode.boundary] at hc
  simp [insertFuel, hc]

/-- Claim C2: insert fails with RectDoesNotFit exactly when the rectangle
is not fully contained in the node's boundary, succeeds with Ok
otherwise, and RectDoesNotFit is the only error it can produce,
propagating unchanged to the caller. -/
theorem claim_C2 (fuel : Nat) (t : QTreeNode) (rect : Rect) (id : Nat) (hf : 0 < fuel) :
    (t.boundary.contains_rect rect = false →
      insertFuel fuel t rect id = some (Except.error QTreeError.RectDoesNotFit, t)) ∧
      (∀ res t2, insertFuel fuel t rect id = some (res, t2) →
        ((∃ e, res = Except.error e) ↔ t.boundary.contains_rect rect = false) ∧
          (∀ e, res = Except.error e → e = QTreeError.RectDoesNotFit)) := by
  refine ⟨fun hc => insertFuel_not_fit hf hc, fun res t2 h => ⟨⟨?_, ?_⟩, ?_⟩⟩
  · rintro ⟨e, rfl⟩
    exact (insertFuel_error_inv h).1
  · intro hc
    rw [insertFuel_not_fit hf hc] at h
    simp only [Option.some.injEq, Prod.mk.injEq] at h
    exact ⟨QTreeError.RectDoesNotFit, h.1.symm⟩
  · rintro e rfl
    exact (insertFuel_error_inv h).2.1

/-- Witness for claim C2 at a concrete node and a rectangle escaping its
boundary (boundary 10x10 at origin (10,10), rectangle 20x20 at origin
(0,0)): the insert fails with RectDoesNotFit. -/
theorem claim_C2_witness :
    insertFuel 1 (QTreeNode.new (Rect.new 10 10 10 10) 4) (Rect.new 0 0 20 20) 1
      = some (Except.error QTreeError.RectDoesNotFit,
          QTreeNode.new (Rect.new 10 10 10 10) 4) :=
  (claim_C2 1 (QTreeNode.new (Rect.new 10 10 10 10) 4) (Rect.new 0 0 20 20) 1
    (by norm_num)).1
    (by norm_num [QTreeNode.new, QTreeNode.boundary, Rect.new, Rect.contains_rect,
      Rect.contains_point, Rect.cornerU, Rect.corner, NE, NW, SW, SE])

/-- Claim C10: insert is atomic on failure: whenever it returns the
RectDoesNotFit error, the tree comes back completely unchanged (no object
stored anywhere, no subdivision performed), because the boundary
containment check precedes every mutation. -/
theorem claim_C10 (fuel : Nat) (t : QTreeNode) (rect : Rect) (id : Nat)
    (e : QTreeError) (t2 : QTreeNode)
    (h : insertFuel fuel t rect id = some (Except.error e, t2)) :
    t2 = t ∧ t.boundary.contains_rect rect = false :=
  ⟨(insertFuel_error_inv h).2.2, (insertFuel_error_inv h).1⟩

/-- Witness for claim C10 at a concrete failing insert: a 20x20 rectangle
at origin (0,0) inserted into a tree over the 10x10 boundary at (10,10)
errors and leaves the tree as it was. -/
theorem claim_C10_witness :
    QTreeNode.new (Rect.new 10 10 10 10) 4 = QTreeNode.new (Rect.new 10 10 10 10) 4 ∧
      (QTreeNode.new (Rect.new 10 10 10 10) 4).boundary.contains_rect
        (Rect.new 0 0 20 20) = false :=
  claim_C10 1 (QTreeNode.new (Rect.new 10 10 10 10) 4) (Rect.new 0 0 20 20) 1
    QTreeError.RectDoesNotFit (QTreeNode.new (Rect.new 10 10 10 10) 4)
    (by norm_num [insertFuel, QTreeNode.new, Rect.new, Rect.contains_rect,
      Rect.contains_point, Rect.cornerU, Rect.corner, NE, NW, SW, SE])

mutual

/-- A fuel budget sufficient for insert, derived from the tree's depth:
2 for a leaf (one step for the node, one for its freshly subdivided
children), one more than the children's budget otherwise. -/
def fuelBound : QTreeNode → Nat
  | .mk _ _ none _ => 2
  | .mk _ _ (some cs) _ => fuelBoundList cs + 1

/-- Fuel budget of a child list: the maximum over its members. -/
def fuelBoundList : List QTreeNode → Nat
  | [] => 1
  | c :: rest => max (fuelBound c) (fuelBoundList rest)

end

mutual

/-- Every node of the tree has a positive capacity (a tree built with a
positive capacity satisfies this, since children inherit the capacity). -/
def allCapPos : QTreeNode → Bool
  | .mk _ _ none cap => decide (0 < cap)
  | .mk _ _ (some cs) cap => decide (0 < cap) && allCapPosList cs

/-- allCapPos over a child list. -/
def allCapPosList : List QTreeNode → Bool
  | [] => true
  | c :: rest => allCapPos c && allCapPosList rest

end

/-- The probing loop answers whenever the per-child insert answers
pointwise at least as often. -/
theorem tryChildren_mono {ins ins2 : QTreeNode → Option (Except QTreeError Unit × QTreeNode)}
    (hp : ∀ c r, ins c = some r → ins2 c = some r) :
    ∀ cs r, tryChildren ins cs = some r → tryChildren ins2 cs = some r := by
  intro cs
  induction cs with
  | nil => intro r hr; simpa [tryChildren] using hr
  | cons c rest ih =>
    intro r hr
    simp only [tryChildren] at hr ⊢
    cases hic : ins c with
    | none => rw [hic] at hr; simp at hr
    | some rc =>
      rw [hic] at hr
      rw [hp c rc hic]
      obtain ⟨res, c2⟩ := rc
      cases res with
      | ok u => exact hr
      | error e =>
        cases htr : tryChildren ins rest with
        | none => rw [htr] at hr; simp at hr
        | some rr => rw [htr] at hr; rw [ih rr htr]; exact hr

/-- The probing loop answers when every child insert answers. -/
theorem tryChildren_total {ins : QTreeNode → Option (Except QTreeError Unit × QTreeNode)}
    {cs : List QTreeNode} (h : ∀ c ∈ cs, ∃ r, ins c = some r) :
    ∃ r, tryChildren ins cs = some r := by
  induction cs with
  | nil => exact ⟨(false, []), rfl⟩
  | cons c rest ih =>
    obtain ⟨⟨res, c2⟩, hc⟩ := h c (by simp)
    obtain ⟨⟨acc, rest2⟩, hrest⟩ := ih (fun c1 h1 => h c1 (by simp [h1]))
    cases res with
    | ok u => exact ⟨(true, c2 :: rest), by simp [tryChildren, hc]⟩
    | error e => exact ⟨(acc, c2 :: rest2), by simp [tryChildren, hc, hrest]⟩

/-- Insert is monotone in fuel: a result obtained with some fuel is
obtained unchanged with any larger fuel. -/
theorem insertFuel_mono : ∀ fuel fuel2 : Nat, ∀ t : QTreeNode, ∀ rect : Rect, ∀ id : Nat,
    ∀ r, fuel ≤ fuel2 → insertFuel fuel t rect id = some r →
      insertFuel fuel2 t rect id = some r := by
  intro fuel
  induction fuel with
  | zero => intro fuel2 t rect id r hle h; simp [insertFuel] at h
  | succ n ih =>
    intro fuel2 t rect id r hle h
    obtain ⟨m, rfl⟩ : ∃ m, fuel2 = m + 1 := ⟨fuel2 - 1, by omega⟩
    obtain ⟨b, objs, ch, cap⟩ := t
    simp only [insertFuel] at h ⊢
    cases hc : b.contains_rect rect with
    | false =>
      rw [hc] at h
      simp only [Bool.not_false, if_true] at h ⊢
      exact h
    | true =>
      rw [hc] at h
      by_cases hlen : objs.length < cap
      · simp only [Bool.not_true, Bool.false_eq_true, if_false, hlen, if_true] at h ⊢
        exact h
      · simp only [Bool.not_true, Bool.false_eq_true, if_false, hlen] at h ⊢
        have hm : n ≤ m := by omega
        cases ch with
        | none =>
          cases htc : tryChildren (fun c => insertFuel n c rect id)
              (subdivChildren b cap) with
          | none => rw [htc] at h; simp at h
          | some p =>
            rw [htc] at h
            rw [tryChildren_mono (fun c rc hrc => ih m c rect id rc hm hrc) _ p htc]
            exact h
        | some cs =>
          cases htc : tryChildren (fun c => insertFuel n c rect id) cs with
          | none => rw [htc] at h; simp at h
          | some p =>
            rw [htc] at h
            rw [tryChildren_mono (fun c rc hrc => ih m c rect id rc hm hrc) _ p htc]
            exact h

/-- A member of a child list is no deeper than the list bound. -/
theorem fuelBound_le_list {cs : List QTreeNode} {c : QTreeNode} (hc : c ∈ cs) :
    fuelBound c ≤ fuelBoundList cs := by
  induction cs with
  | nil => cases hc
  | cons c1 rest ih =>
    rcases List.mem_cons.mp hc with rfl | hmem
    · simp [fuelBoundList]
    · calc fuelBound c ≤ fuelBoundList rest := ih hmem
        _ ≤ fuelBoundList (c1 :: rest) := by simp [fuelBoundList]

/-- allCapPos restricted to a member of a child list. -/
theorem allCapPosList_mem {cs : List QTreeNode} {c : QTreeNode}
    (h : allCapPosList cs = true) (hc : c ∈ cs) : allCapPos c = true := by
  induction cs with
  | nil => cases hc
  | cons c1 rest ih =>
    simp only [allCapPosList, Bool.and_eq_true] at h
    rcases List.mem_cons.mp hc with rfl | hmem
    · exact h.1
    · exact ih h.2 hmem

/-- Every fresh quadrant child is a leaf with empty objects inheriting the
parent's capacity. -/
theorem subdivChildren_shape {b : Rect} {cap : Nat} {c : QTreeNode}
    (h : c ∈ subdivChildren b cap) : ∃ rb, c = QTreeNode.new rb cap := by
  simp only [subdivChildren, List.mem_cons, List.mem_singleton, List.not_mem_nil,
    or_false] at h
  rcases h with rfl | rfl | rfl | rfl <;> exact ⟨_, rfl⟩

/-- A fresh leaf answers with one unit of fuel when its capacity is
positive: it either rejects the rectangle or stores it on the fast path. -/
theorem insertFuel_one_fresh {rb : Rect} {cap : Nat} {rect : Rect} {id : Nat}
    (hcap : 0 < cap) :
    ∃ r, insertFuel 1 (QTreeNode.new rb cap) rect id = some r := by
  cases hc : rb.contains_rect rect with
  | false =>
    exact ⟨(Except.error QTreeError.RectDoesNotFit, QTreeNode.new rb cap),
      insertFuel_not_fit (by omega) (by simpa [QTreeNode.new, QTreeNode.boundary] using hc)⟩
  | true =>
    refine ⟨(Except.ok (), QTreeNode.mk rb (mapInsert [] id rect) none cap), ?_⟩
    simp [insertFuel, QTreeNode.new, hc, hcap]

/-- Size of a child is smaller than the size of the node holding it. -/
theorem sizeOf_child_lt (b : Rect) (objs : List (Nat × Rect)) (cap : Nat)
    {cs : List QTreeNode} {c : QTreeNode} (hc : c ∈ cs) :
    sizeOf c < sizeOf (QTreeNode.mk b objs (some cs) cap) := by
  have h1 := List.sizeOf_lt_of_mem hc
  simp only [QTreeNode.mk.sizeOf_spec, Option.some.sizeOf_spec]
  omega

/-- Insert answers within the depth-derived fuel bound on any tree all of
whose nodes have positive capacity (strong induction on the tree size). -/
theorem insertFuel_total_aux : ∀ n : Nat, ∀ t : QTreeNode, ∀ rect : Rect, ∀ id : Nat,
    sizeOf t ≤ n → allCapPos t = true →
      ∃ r, insertFuel (fuelBound t) t rect id = some r := by
  intro n
  induction n with
  | zero =>
    intro t rect id hs _
    obtain ⟨b, objs, ch, cap⟩ := t
    simp only [QTreeNode.mk.sizeOf_spec] at hs
    omega
  | succ n ih =>
    intro t rect id hs hcap
    obtain ⟨b, objs, ch, cap⟩ := t
    cases ch with
    | none =>
      have hcap0 : 0 < cap := by simpa [allCapPos] using hcap
      rw [show fuelBound (QTreeNode.mk b objs none cap) = 2 from by simp [fuelBound]]
      cases hc : b.contains_rect rect with
      | false =>
        exact ⟨_, insertFuel_not_fit (by omega) (by simpa [QTreeNode.boundary] using hc)⟩
      | true =>
        by_cases hlen : objs.length < cap
        · exact ⟨(Except.ok (), QTreeNode.mk b (mapInsert objs id rect) none cap),
            by simp [insertFuel, hc, hlen]⟩
        · have htot : ∀ c ∈ subdivChildren b cap, ∃ r, insertFuel 1 c rect id = some r := by
            intro c hcmem
            obtain ⟨rb, rfl⟩ := subdivChildren_shape hcmem
            exact insertFuel_one_fresh hcap0
          obtain ⟨⟨acc, cs2⟩, htc⟩ := tryChildren_total htot
          cases acc with
          | true =>
            exact ⟨(Except.ok (), QTreeNode.mk b objs (some cs2) cap),
              by simp [insertFuel, hc, hlen, htc]⟩
          | false =>
            exact ⟨(Except.ok (), QTreeNode.mk b (mapInsert objs id rect) (some cs2) cap),
              by simp [insertFuel, hc, hlen, htc]⟩
    | some cs =>
      have hcap2 : 0 < cap ∧ allCapPosList cs = true := by
        simpa [allCapPos, Bool.and_eq_true] using hcap
      rw [show fuelBound (QTreeNode.mk b objs (some cs) cap) = fuelBoundList cs + 1 from
        by simp [fuelBound]]
      cases hc : b.contains_rect rect with
      | false =>
        exact ⟨_, insertFuel_not_fit (by omega) (by simpa [QTreeNode.boundary] using hc)⟩
      | true =>
        by_cases hlen : objs.length < cap
        · exact ⟨(Except.ok (), QTreeNode.mk b (mapInsert objs id rect) (some cs) cap),
            by simp [insertFuel, hc, hlen]⟩
        · have htot : ∀ c ∈ cs, ∃ r, insertFuel (fuelBoundList cs) c rect id = some r := by
            intro c hcmem
            have hsz : sizeOf c ≤ n := by
              have := sizeOf_child_lt b objs cap hcmem
              omega
            obtain ⟨r, hr⟩ := ih c rect id hsz (allCapPosList_mem hcap2.2 hcmem)
            exact ⟨r, insertFuel_mono _ _ _ _ _ _ (fuelBound_le_list hcmem) hr⟩
          obtain ⟨⟨acc, cs2⟩, htc⟩ := tryChildren_total htot
          cases acc with
          | true =>
            exact ⟨(Except.ok (), QTreeNode.mk b objs (some cs2) cap),
              by simp [insertFuel, hc, hlen, htc]⟩
          | false =>
            exact ⟨(Except.ok (), QTreeNode.mk b (mapInsert objs id rect) (some cs2) cap),
              by simp [insertFuel, hc, hlen, htc]⟩

/-- Claim C6: on every tree all of whose nodes have positive capacity,
insert terminates within a fuel budget derived from the tree's depth, for
every input rectangle and identifier (query_point, enumObjects and
enumRegions are total structurally recursive functions of the embedding,
so their termination holds by construction). -/
theorem claim_C6 (t : QTreeNode) (rect : Rect) (id : Nat)
    (hcap : allCapPos t = true) :
    ∃ r, insertFuel (fuelBound t) t rect id = some r :=
  insertFuel_total_aux (sizeOf t) t rect id le_rfl hcap

/-- Witness for claim C6 at a concrete fresh tree of capacity 4. -/
theorem claim_C6_witness :
    ∃ r, insertFuel (fuelBound (QTreeNode.new (Rect.new 0 0 100 100) 4))
      (QTreeNode.new (Rect.new 0 0 100 100) 4) (Rect.new 10 10 10 10) 1 = some r :=
  claim_C6 (QTreeNode.new (Rect.new 0 0 100 100) 4) (Rect.new 10 10 10 10) 1
    (by simp [allCapPos, QTreeNode.new])

/-- The 200x200 boundary at the origin used by the capacity scenarios. -/
def B200 : Rect := Rect.new 0 0 200 200

/-- The NE quadrant node of B200 at capacity 4. -/
def qNE : QTreeNode := QTreeNode.new ⟨⟨150, 50⟩, 50, 50⟩ 4

/-- The NW quadrant node of B200 at capacity 4. -/
def qNW : QTreeNode := QTreeNode.new ⟨⟨50, 50⟩, 50, 50⟩ 4

/-- The SW quadrant node of B200 at capacity 4. -/
def qSW : QTreeNode := QTreeNode.new ⟨⟨50, 150⟩, 50, 50⟩ 4

/-- The SE quadrant node of B200 at capacity 4. -/
def qSE : QTreeNode := QTreeNode.new ⟨⟨150, 150⟩, 50, 50⟩ 4

/-- The subdivision of B200 at capacity 4 computes to the four concrete
quadrant nodes. -/
theorem subdivChildren_B200 : subdivChildren B200 4 = [qNE, qNW, qSW, qSE] := by
  norm_num [subdivChildren, B200, qNE, qNW, qSW, qSE, Rect.new, Rect.cornerU,
    Rect.corner, NE, NW, SW, SE, QTreeNode.new]

/-- If every child before c rejects the rectangle and c accepts it, the
probing loop succeeds at c, updating exactly that child. -/
theorem tryChildren_first_ok {ins : QTreeNode → Option (Except QTreeError Unit × QTreeNode)}
    (pre : List QTreeNode) {c c2 : QTreeNode} (post : List QTreeNode)
    (hpre : ∀ c1 ∈ pre, ins c1 = some (Except.error QTreeError.RectDoesNotFit, c1))
    (hc : ins c = some (Except.ok (), c2)) :
    tryChildren ins (pre ++ c :: post) = some (true, pre ++ c2 :: post) := by
  induction pre with
  | nil => simp [tryChildren, hc]
  | cons p ps ih =>
    have hp := hpre p (by simp)
    simp only [List.cons_append, tryChildren, hp]
    rw [List.append_eq, ih (fun c1 h1 => hpre c1 (by simp [h1]))]

/-- Claim C4: on a node at or beyond capacity with no children yet, an
insert of a rectangle that fits some quadrant subdivides the node and
stores the rectangle in exactly one child, the first child in the fixed
order [NE, NW, SW, SE] whose boundary fully contains it, leaving the
node's own object mapping untouched. -/
theorem claim_C4 (b : Rect) (objs : List (Nat × Rect)) (cap : Nat) (rect : Rect) (id : Nat)
    (pre : List QTreeNode) (c : QTreeNode) (post : List QTreeNode)
    (hcontains : b.contains_rect rect = true)
    (hfull : ¬ objs.length < cap)
    (hcap : 0 < cap)
    (hsplit : subdivChildren b cap = pre ++ c :: post)
    (hpre : ∀ c1 ∈ pre, c1.boundary.contains_rect rect = false)
    (hfit : c.boundary.contains_rect rect = true) :
    insertFuel 2 (QTreeNode.mk b objs none cap) rect id =
      some (Except.ok (),
        QTreeNode.mk b objs
          (some (pre ++ QTreeNode.mk c.boundary [(id, rect)] none cap :: post)) cap) := by
  have hcmem : c ∈ subdivChildren b cap := by rw [hsplit]; simp
  obtain ⟨rb, hcrb⟩ := subdivChildren_shape hcmem
  have hinsc : insertFuel 1 c rect id
      = some (Except.ok (), QTreeNode.mk c.boundary [(id, rect)] none cap) := by
    rw [hcrb] at hfit ⊢
    simp only [QTreeNode.new, QTreeNode.boundary] at hfit ⊢
    simp [insertFuel, hfit, hcap, mapInsert]
  have hinspre : ∀ c1 ∈ pre, insertFuel 1 c1 rect id
      = some (Except.error QTreeError.RectDoesNotFit, c1) :=
    fun c1 h1 => insertFuel_not_fit (by omega) (hpre c1 h1)
  have htc := tryChildren_first_ok pre post hinspre hinsc
  simp only [insertFuel, hcontains, Bool.not_true, Bool.false_eq_true, if_false,
    hfull, hsplit, htc]

/-- Witness for claim C4: the 200x200 boundary holding four straddling
50x50 rectangles at capacity 4; a 10x10 rectangle that fits the NW
quadrant triggers subdivision and lands in the NW child alone. -/
theorem claim_C4_witness :
    insertFuel 2
        (QTreeNode.mk B200 [(1, Rect.new 75 75 50 50), (2, Rect.new 75 75 50 50),
          (3, Rect.new 75 75 50 50), (4, Rect.new 75 75 50 50)] none 4)
        (Rect.new 10 10 10 10) 6 =
      some (Except.ok (),
        QTreeNode.mk B200 [(1, Rect.new 75 75 50 50), (2, Rect.new 75 75 50 50),
          (3, Rect.new 75 75 50 50), (4, Rect.new 75 75 50 50)]
          (some ([qNE] ++ QTreeNode.mk qNW.boundary [(6, Rect.new 10 10 10 10)] none 4
            :: [qSW, qSE])) 4) := by
  refine claim_C4 B200 _ 4 (Rect.new 10 10 10 10) 6 [qNE] qNW [qSW, qSE] ?_ ?_ ?_ ?_ ?_ ?_
  · norm_num [B200, Rect.new, Rect.contains_rect, Rect.contains_point, Rect.cornerU,
      Rect.corner, NE, NW, SW, SE]
  · norm_num
  · norm_num
  · simp [subdivChildren_B200]
  · intro c1 h1
    simp only [List.mem_singleton] at h1
    subst h1
    norm_num [qNE, QTreeNode.new, QTreeNode.boundary, Rect.new, Rect.contains_rect,
      Rect.contains_point, Rect.cornerU, Rect.corner, NE, NW, SW, SE]
  · norm_num [qNW, QTreeNode.new, QTreeNode.boundary, Rect.new, Rect.contains_rect,
      Rect.contains_point, Rect.cornerU, Rect.corner, NE, NW, SW, SE]

/-- Claim C3: capacity is a soft threshold: on the 200x200 boundary at
capacity 4, five rectangles with distinct identifiers, each contained in
the boundary but fitting none of the four quadrants, are all stored in
the root's own object mapping (its length reaches 5, exceeding the
capacity), with no eviction. -/
theorem claim_C3 (r1 r2 r3 r4 r5 : Rect) (id1 id2 id3 id4 id5 : Nat)
    (hin1 : B200.contains_rect r1 = true) (hin2 : B200.contains_rect r2 = true)
    (hin3 : B200.contains_rect r3 = true) (hin4 : B200.contains_rect r4 = true)
    (hin5 : B200.contains_rect r5 = true)
    (hq1 : ∀ c ∈ subdivChildren B200 4, c.boundary.contains_rect r1 = false)
    (hq2 : ∀ c ∈ subdivChildren B200 4, c.boundary.contains_rect r2 = false)
    (hq3 : ∀ c ∈ subdivChildren B200 4, c.boundary.contains_rect r3 = false)
    (hq4 : ∀ c ∈ subdivChildren B200 4, c.boundary.contains_rect r4 = false)
    (hq5 : ∀ c ∈ subdivChildren B200 4, c.boundary.contains_rect r5 = false)
    (h12 : id1 ≠ id2) (h13 : id1 ≠ id3) (h14 : id1 ≠ id4) (h15 : id1 ≠ id5)
    (h23 : id2 ≠ id3) (h24 : id2 ≠ id4) (h25 : id2 ≠ id5)
    (h34 : id3 ≠ id4) (h35 : id3 ≠ id5) (h45 : id4 ≠ id5) :
    ∃ t5 : QTreeNode,
      (∃ t1 t2 t3 t4 : QTreeNode,
        insertFuel 2 (QTreeNode.new B200 4) r1 id1 = some (Except.ok (), t1) ∧
        insertFuel 2 t1 r2 id2 = some (Except.ok (), t2) ∧
        insertFuel 2 t2 r3 id3 = some (Except.ok (), t3) ∧
        insertFuel 2 t3 r4 id4 = some (Except.ok (), t4) ∧
        insertFuel 2 t4 r5 id5 = some (Except.ok (), t5)) ∧
      t5.objects.length = 5 ∧ t5.capacity < t5.objects.length ∧
      (id1, r1) ∈ t5.objects ∧ (id2, r2) ∈ t5.objects ∧ (id3, r3) ∈ t5.objects ∧
      (id4, r4) ∈ t5.objects ∧ (id5, r5) ∈ t5.objects := by
  refine ⟨QTreeNode.mk B200 [(id5, r5), (id4, r4), (id3, r3), (id2, r2), (id1, r1)]
      (some [qNE, qNW, qSW, qSE]) 4,
    ⟨QTreeNode.mk B200 [(id1, r1)] none 4,
      QTreeNode.mk B200 [(id2, r2), (id1, r1)] none 4,
      QTreeNode.mk B200 [(id3, r3), (id2, r2), (id1, r1)] none 4,
      QTreeNode.mk B200 [(id4, r4), (id3, r3), (id2, r2), (id1, r1)] none 4,
      ?_, ?_, ?_, ?_, ?_⟩,
    by simp [QTreeNode.objects], by simp [QTreeNode.objects, QTreeNode.capacity],
    by simp [QTreeNode.objects], by simp [QTreeNode.objects], by simp [QTreeNode.objects],
    by simp [QTreeNode.objects], by simp [QTreeNode.objects]⟩
  · simp [insertFuel, QTreeNode.new, hin1, mapInsert]
  · simp [insertFuel, hin2, mapInsert, List.filter_cons, h12]
  · simp [insertFuel, hin3, mapInsert, List.filter_cons, h13, h23]
  · simp [insertFuel, hin4, mapInsert, List.filter_cons, h14, h24, h34]
  · have hnf : ∀ c1 ∈ subdivChildren B200 4, insertFuel 1 c1 r5 id5
        = some (Except.error QTreeError.RectDoesNotFit, c1) :=
      fun c1 h1 => insertFuel_not_fit (by omega) (hq5 c1 h1)
    have e1 := hnf qNE (by simp [subdivChildren_B200])
    have e2 := hnf qNW (by simp [subdivChildren_B200])
    have e3 := hnf qSW (by simp [subdivChildren_B200])
    have e4 := hnf qSE (by simp [subdivChildren_B200])
    have htc : tryChildren (fun c => insertFuel 1 c r5 id5) [qNE, qNW, qSW, qSE]
        = some (false, [qNE, qNW, qSW, qSE]) := by
      simp [tryChildren, e1, e2, e3, e4]
    simp [insertFuel, hin5, subdivChildren_B200, htc, mapInsert, List.filter_cons,
      h15, h25, h35, h45]

/-- Witness for claim C3: five copies of the 50x50 rectangle at origin
(75,75), which straddles the center of the 200x200 boundary, inserted
under identifiers 1 through 5. -/
theorem claim_C3_witness :
    ∃ t5 : QTreeNode,
      (∃ t1 t2 t3 t4 : QTreeNode,
        insertFuel 2 (QTreeNode.new B200 4) (Rect.new 75 75 50 50) 1
          = some (Except.ok (), t1) ∧
        insertFuel 2 t1 (Rect.new 75 75 50 50) 2 = some (Except.ok (), t2) ∧
        insertFuel 2 t2 (Rect.new 75 75 50 50) 3 = some (Except.ok (), t3) ∧
        insertFuel 2 t3 (Rect.new 75 75 50 50) 4 = some (Except.ok (), t4) ∧
        insertFuel 2 t4 (Rect.new 75 75 50 50) 5 = some (Except.ok (), t5)) ∧
      t5.objects.length = 5 ∧ t5.capacity < t5.objects.length ∧
      (1, Rect.new 75 75 50 50) ∈ t5.objects ∧ (2, Rect.new 75 75 50 50) ∈ t5.objects ∧
      (3, Rect.new 75 75 50 50) ∈ t5.objects ∧ (4, Rect.new 75 75 50 50) ∈ t5.objects ∧
      (5, Rect.new 75 75 50 50) ∈ t5.objects := by
  have hin : B200.contains_rect (Rect.new 75 75 50 50) = true := by
    norm_num [B200, Rect.new, Rect.contains_rect, Rect.contains_point, Rect.cornerU,
      Rect.corner, NE, NW, SW, SE]
  have hq : ∀ c ∈ subdivChildren B200 4,
      c.boundary.contains_rect (Rect.new 75 75 50 50) = false := by
    intro c hc
    simp only [subdivChildren_B200, List.mem_cons, List.not_mem_nil, or_false] at hc
    rcases hc with rfl | rfl | rfl | rfl <;>
      norm_num [qNE, qNW, qSW, qSE, QTreeNode.new, QTreeNode.boundary, Rect.new,
        Rect.contains_rect, Rect.contains_point, Rect.cornerU, Rect.corner, NE, NW, SW, SE]
  exact claim_C3 (Rect.new 75 75 50 50) (Rect.new 75 75 50 50) (Rect.new 75 75 50 50)
    (Rect.new 75 75 50 50) (Rect.new 75 75 50 50) 1 2 3 4 5 hin hin hin hin hin
    hq hq hq hq hq (by omega) (by omega) (by omega) (by omega) (by omega) (by omega)
    (by omega) (by omega) (by omega) (by omega)

/-- The 100x100 boundary at the origin used by the query scenarios. -/
def B100 : Rect := Rect.new 0 0 100 100

/-- The NE quadrant rectangle of B100. -/
def neQ : Rect := ⟨⟨75, 25⟩, 25, 25⟩

/-- The NW quadrant rectangle of B100. -/
def nwQ : Rect := ⟨⟨25, 25⟩, 25, 25⟩

/-- The SW quadrant rectangle of B100. -/
def swQ : Rect := ⟨⟨25, 75⟩, 25, 25⟩

/-- The SE quadrant rectangle of B100. -/
def seQ : Rect := ⟨⟨75, 75⟩, 25, 25⟩

/-- A subdivided tree whose root holds one object covering the whole
boundary and whose NE child holds two objects covering the NE quadrant:
the input on which the query-limit underflow shows. -/
def treeC1 : QTreeNode :=
  QTreeNode.mk B100 [(1, B100)]
    (some [QTreeNode.mk neQ [(2, neQ), (3, neQ)] none 4,
      QTreeNode.new nwQ 4, QTreeNode.new swQ 4, QTreeNode.new seQ 4]) 4

/-- Claim C1, failing-input evaluation: querying treeC1 at the NE-quadrant
center with limit some 1 matches the root object (limit 1 becomes 0 and
the local scan breaks), then passes some 0 into the NE child, whose two
matching objects are both still added to the result while the counter is
decremented from 0, wrapping around below zero to 2 ^ 64 - 1 and then
2 ^ 64 - 2 instead of clamping (a debug build would panic on this
subtraction). -/
theorem claim_C1 :
    query_point treeC1 ⟨75, 25⟩ (some 1) = {1, 2, 3} ∧
      (scanObjects ⟨75, 25⟩ [(2, neQ), (3, neQ)] ∅ (some 0)).2
        = some 18446744073709551614 := by
  constructor
  · norm_num [query_point, queryChildren, scanObjects, usizeSub1, treeC1, B100, neQ,
      nwQ, swQ, seQ, QTreeNode.new, Rect.new, Rect.contains_point, Rect.cornerU,
      Rect.corner, NE, NW, SW, SE]
    decide
  · norm_num [scanObjects, usizeSub1, neQ, Rect.contains_point, Rect.cornerU,
      Rect.corner, NE, NW, SW, SE]

/-- A subdivided tree with no root objects and one matching object in
each of the NE and NW children, both containing the query point on their
shared edge. -/
def treeC9 : QTreeNode :=
  QTreeNode.mk B100 []
    (some [QTreeNode.mk neQ [(1, neQ)] none 4,
      QTreeNode.mk nwQ [(2, nwQ)] none 4,
      QTreeNode.new swQ 4, QTreeNode.new seQ 4]) 4

/-- Claim C9: the query limit does not bound the total result size: on
treeC9 with limit some 1, the (unconsumed) budget of 1 is passed
independently to each of the 4 children, so both the NE and the NW child
contribute a match and the query returns 2 identifiers, strictly more
than the limit. -/
theorem claim_C9 :
    query_point treeC9 ⟨50, 25⟩ (some 1) = {1, 2} ∧
      1 < (query_point treeC9 ⟨50, 25⟩ (some 1)).card := by
  have h : query_point treeC9 ⟨50, 25⟩ (some 1) = {1, 2} := by
    norm_num [query_point, queryChildren, scanObjects, usizeSub1, treeC9, B100, neQ,
      nwQ, swQ, seQ, QTreeNode.new, Rect.new, Rect.contains_point, Rect.cornerU,
      Rect.corner, NE, NW, SW, SE]
    decide
  exact ⟨h, by rw [h]; decide⟩

end QtreeDemo
